import Mathlib

/-!
# Verification of the quantum-circuit simulator core (src/project/project.py)

The simulator tracks each qubit as a 2-amplitude vector, applies the
single-qubit gates H, X, Z, S, T, a two-qubit CNOT step, and extracts a
probability distribution by an iterated Kronecker product.

Every amplitude the program can ever compute lies in the field ℚ(√2, i):
the initial states use 1/√2 = √2/2, the Hadamard entries use 1/√2, and the
T gate uses e^(i·π/4) = √2/2 + (√2/2)·i.  We therefore embed the numpy
floating-point arithmetic exactly, as quadruples of rationals
`(rea + reb·√2) + (ima + imb·√2)·i`, with decidable equality, so concrete
program runs evaluate by `simp`/`norm_num`.
-/

/-- An element `(rea + reb·√2) + (ima + imb·√2)·i` of the field ℚ(√2, i).
Since `1, √2` are linearly independent over ℚ, two such elements are equal
exactly when all four rational coordinates agree. -/
@[ext]
structure Amp where
  rea : ℚ
  reb : ℚ
  ima : ℚ
  imb : ℚ
deriving DecidableEq, Repr

instance : Zero Amp := ⟨⟨0, 0, 0, 0⟩⟩

instance : One Amp := ⟨⟨1, 0, 0, 0⟩⟩

instance : Add Amp :=
  ⟨fun x y => ⟨x.rea + y.rea, x.reb + y.reb, x.ima + y.ima, x.imb + y.imb⟩⟩

instance : Neg Amp := ⟨fun x => ⟨-x.rea, -x.reb, -x.ima, -x.imb⟩⟩

/-- Multiplication: `(A + C·i)·(B + D·i) = (A·B - C·D) + (A·D + C·B)·i`
with each of `A, B, C, D` of the form `a + b·√2`, using `√2·√2 = 2`. -/
instance : Mul Amp :=
  ⟨fun x y =>
    ⟨x.rea * y.rea + 2 * x.reb * y.reb - x.ima * y.ima - 2 * x.imb * y.imb,
     x.rea * y.reb + x.reb * y.rea - x.ima * y.imb - x.imb * y.ima,
     x.rea * y.ima + 2 * x.reb * y.imb + x.ima * y.rea + 2 * x.imb * y.reb,
     x.rea * y.imb + x.reb * y.ima + x.ima * y.reb + x.imb * y.rea⟩⟩

@[simp] theorem Amp.zero_rea : (0 : Amp).rea = 0 := rfl

@[simp] theorem Amp.zero_reb : (0 : Amp).reb = 0 := rfl

@[simp] theorem Amp.zero_ima : (0 : Amp).ima = 0 := rfl

@[simp] theorem Amp.zero_imb : (0 : Amp).imb = 0 := rfl

@[simp] theorem Amp.one_rea : (1 : Amp).rea = 1 := rfl

@[simp] theorem Amp.one_reb : (1 : Amp).reb = 0 := rfl

@[simp] theorem Amp.one_ima : (1 : Amp).ima = 0 := rfl

@[simp] theorem Amp.one_imb : (1 : Amp).imb = 0 := rfl

@[simp] theorem Amp.add_rea (x y : Amp) : (x + y).rea = x.rea + y.rea := rfl

@[simp] theorem Amp.add_reb (x y : Amp) : (x + y).reb = x.reb + y.reb := rfl

@[simp] theorem Amp.add_ima (x y : Amp) : (x + y).ima = x.ima + y.ima := rfl

@[simp] theorem Amp.add_imb (x y : Amp) : (x + y).imb = x.imb + y.imb := rfl

@[simp] theorem Amp.neg_rea (x : Amp) : (-x).rea = -x.rea := rfl

@[simp] theorem Amp.neg_reb (x : Amp) : (-x).reb = -x.reb := rfl

@[simp] theorem Amp.neg_ima (x : Amp) : (-x).ima = -x.ima := rfl

@[simp] theorem Amp.neg_imb (x : Amp) : (-x).imb = -x.imb := rfl

@[simp] theorem Amp.mul_rea (x y : Amp) :
    (x * y).rea =
      x.rea * y.rea + 2 * x.reb * y.reb - x.ima * y.ima - 2 * x.imb * y.imb := rfl

@[simp] theorem Amp.mul_reb (x y : Amp) :
    (x * y).reb =
      x.rea * y.reb + x.reb * y.rea - x.ima * y.imb - x.imb * y.ima := rfl

@[simp] theorem Amp.mul_ima (x y : Amp) :
    (x * y).ima =
      x.rea * y.ima + 2 * x.reb * y.imb + x.ima * y.rea + 2 * x.imb * y.reb := rfl

@[simp] theorem Amp.mul_imb (x y : Amp) :
    (x * y).imb =
      x.rea * y.imb + x.reb * y.ima + x.ima * y.reb + x.imb * y.rea := rfl

instance : AddCommGroup Amp := by
  refine
  { add := (· + ·)
    zero := (0 : Amp)
    sub := fun a b => a + -b
    neg := Neg.neg
    nsmul := @nsmulRec Amp ⟨0⟩ ⟨(· + ·)⟩
    zsmul := @zsmulRec Amp ⟨0⟩ ⟨(· + ·)⟩ ⟨Neg.neg⟩ (@nsmulRec Amp ⟨0⟩ ⟨(· + ·)⟩)
    add_assoc := ?_
    zero_add := ?_
    add_zero := ?_
    neg_add_cancel := ?_
    add_comm := ?_ } <;>
  intros <;>
  ext <;>
  simp <;>
  ring

instance : CommRing Amp := by
  refine
  { (inferInstance : AddCommGroup Amp) with
    one := (1 : Amp)
    mul := (· * ·)
    npow := @npowRec Amp ⟨1⟩ ⟨(· * ·)⟩
    left_distrib := ?_
    right_distrib := ?_
    zero_mul := ?_
    mul_zero := ?_
    mul_assoc := ?_
    one_mul := ?_
    mul_one := ?_
    mul_comm := ?_ } <;>
  intros <;>
  ext <;>
  simp <;>
  ring

/-- The distinct failure conditions of the core, named as in the spec's
error taxonomy.  In the Python source the first four are `ValueError`s
with distinct messages; `IndexOutOfRange` is the `IndexError` raised by an
out-of-bounds list index in an operation, and `EmptyQubitCollection` is
the `IndexError` raised by `qubits[0]` in `calculate_probabilities` when
the collection is empty. -/
inductive QError where
  | UnknownInitialState
  | UnknownGate
  | UnsupportedOperation
  | InsufficientQubits
  | IndexOutOfRange
  | EmptyQubitCollection
deriving DecidableEq, Repr

/-- A qubit state: the pair of amplitudes `(a₀, a₁)` of `|0⟩` and `|1⟩`. -/
abbrev Qubit := Amp × Amp

/-- The amplitude `1/√2 = √2/2`, written exactly. -/
def invSqrt2 : Amp := ⟨0, 1/2, 0, 0⟩

/-- The imaginary unit `i`. -/
def iUnit : Amp := ⟨0, 0, 1, 0⟩

/-- The phase `e^(i·π/4) = √2/2 + (√2/2)·i`, written exactly. -/
def expIPiDiv4 : Amp := ⟨0, 1/2, 0, 1/2⟩

/-- `create_qubit` from project.py: label `"0"` gives `(1,0)`, `"1"` gives
`(0,1)`, `"+"` gives `(1/√2, 1/√2)`, `"-"` gives `(1/√2, -1/√2)`; any
other label raises `ValueError` (`UnknownInitialState`). -/
def create_qubit (state : String) : Except QError Qubit :=
  if state = "0" then .ok (1, 0)
  else if state = "1" then .ok (0, 1)
  else if state = "+" then .ok (invSqrt2, invSqrt2)
  else if state = "-" then .ok (invSqrt2, -invSqrt2)
  else .error .UnknownInitialState

/-- A named 2×2 gate matrix `[[g00, g01], [g10, g11]]`. -/
structure Gate where
  g00 : Amp
  g01 : Amp
  g10 : Amp
  g11 : Amp
deriving DecidableEq, Repr

/-- The gate dictionary inside `apply_gate`: H, X, Z, S, T. -/
def gates (gate : String) : Option Gate :=
  if gate = "H" then some ⟨invSqrt2, invSqrt2, invSqrt2, -invSqrt2⟩
  else if gate = "X" then some ⟨0, 1, 1, 0⟩
  else if gate = "Z" then some ⟨1, 0, 0, -1⟩
  else if gate = "S" then some ⟨1, 0, 0, iUnit⟩
  else if gate = "T" then some ⟨1, 0, 0, expIPiDiv4⟩
  else none

/-- `apply_gate` from project.py: the matrix-vector product
`gates[gate] · qubit`; an unknown gate name raises `ValueError`
(`UnknownGate`). -/
def apply_gate (qubit : Qubit) (gate : String) : Except QError Qubit :=
  match gates gate with
  | none => .error .UnknownGate
  | some m =>
      .ok (m.g00 * qubit.1 + m.g01 * qubit.2, m.g10 * qubit.1 + m.g11 * qubit.2)

/-- Python list-index resolution: a non-negative index must be `< n`; a
negative index `i` counts from the end and resolves to `n + i` when
`-n ≤ i`.  `none` models the `IndexError`. -/
def pyIdx (n : Nat) (i : Int) : Option Nat :=
  if 0 ≤ i then (if i < (n : Int) then some i.toNat else none)
  else (if -(n : Int) ≤ i then some ((n : Int) + i).toNat else none)

/-- `xs[i]` on a Python list, with negative-index wrap-around. -/
def pyGet (xs : List Qubit) (i : Int) : Option Qubit :=
  (pyIdx xs.length i).bind fun k => xs.get? k

/-- `xs[i] = v` on a Python list.  Every use below first reads the same
index successfully via `pyGet`, so the out-of-range branch (where Python
would raise) is never reached and returning `xs` there is harmless. -/
def pySet (xs : List Qubit) (i : Int) (v : Qubit) : List Qubit :=
  match pyIdx xs.length i with
  | some k => xs.set k v
  | none => xs

/-- `apply_cnot` from project.py.  With fewer than 2 qubits it raises
`ValueError` (`InsufficientQubits`).  Otherwise it forms
`j = kron(qubits[control], qubits[target])` (so `j[2p+q] = qc[p]·qt[q]`),
multiplies by the CNOT matrix `[[1,0,0,0],[0,1,0,0],[0,0,0,1],[0,0,1,0]]`
— giving `(j0, j1, j3, j2)` — and assigns `qubits[control] = new[:2]`
then `qubits[target] = new[2:]`, in that order, exactly as the source's
two list assignments do. -/
def apply_cnot (qubits : List Qubit) (control target : Int) :
    Except QError (List Qubit) :=
  if qubits.length < 2 then .error .InsufficientQubits
  else
    match pyGet qubits control, pyGet qubits target with
    | some qc, some qt =>
        let j0 := qc.1 * qt.1
        let j1 := qc.1 * qt.2
        let j2 := qc.2 * qt.1
        let j3 := qc.2 * qt.2
        .ok (pySet (pySet qubits control (j0, j1)) target (j3, j2))
    | _, _ => .error .IndexOutOfRange

/-- A circuit operation, by the tuple shapes `simulate_circuit`
distinguishes: a length-2 tuple `(qubit_idx, gate)`, a length-3 tuple
`(head, a, b)` (a CNOT only when `head = "CNOT"`), or a tuple of any
other length (`malformed`). -/
inductive Operation where
  | single (qubit_idx : Int) (gate : String)
  | triple (head : String) (control target : Int)
  | malformed
deriving DecidableEq, Repr

/-- One iteration of the loop in `simulate_circuit`.  For a length-2
tuple the source evaluates `qubits[qubit_idx]` first (so an out-of-range
index raises before the gate name is looked up) and then assigns the
result back to `qubits[qubit_idx]`.  A length-3 tuple headed `"CNOT"`
delegates to `apply_cnot`; anything else raises `ValueError`
(`UnsupportedOperation`). -/
def applyOp (qubits : List Qubit) (op : Operation) : Except QError (List Qubit) :=
  match op with
  | .single idx g =>
      match pyGet qubits idx with
      | none => .error .IndexOutOfRange
      | some q =>
          match apply_gate q g with
          | .error e => .error e
          | .ok q2 => .ok (pySet qubits idx q2)
  | .triple head c t =>
      if head = "CNOT" then apply_cnot qubits c t
      else .error .UnsupportedOperation
  | .malformed => .error .UnsupportedOperation

/-- The list comprehension `[create_qubit(state) for state in
initial_states]`: labels are converted left to right and the first
invalid label aborts. -/
def create_qubits : List String → Except QError (List Qubit)
  | [] => .ok []
  | s :: rest =>
      match create_qubit s with
      | .error e => .error e
      | .ok q =>
          match create_qubits rest with
          | .error e => .error e
          | .ok qs => .ok (q :: qs)

/-- The operation loop of `simulate_circuit`: the operations are applied
strictly in program order and the first failing operation aborts the
whole run. -/
def runOps (qubits : List Qubit) : List Operation → Except QError (List Qubit)
  | [] => .ok qubits
  | op :: rest =>
      match applyOp qubits op with
      | .error e => .error e
      | .ok qs => runOps qs rest

/-- `simulate_circuit` from project.py: build the initial qubits from the
labels, then run the operation loop. -/
def simulate_circuit (initial_states : List String)
    (gates_sequence : List Operation) : Except QError (List Qubit) :=
  match create_qubits initial_states with
  | .error e => .error e
  | .ok qubits => runOps qubits gates_sequence

/-- The squared modulus `|z|²` of an amplitude (`np.abs(z) ** 2`), again
an element of ℚ(√2, i) with zero imaginary part: for `z = A + C·i` with
`A = a + b·√2`, `C = c + d·√2`, `|z|² = A² + C²
= (a² + 2b² + c² + 2d²) + (2ab + 2cd)·√2`. -/
def normSq (z : Amp) : Amp :=
  ⟨z.rea ^ 2 + 2 * z.reb ^ 2 + z.ima ^ 2 + 2 * z.imb ^ 2,
   2 * z.rea * z.reb + 2 * z.ima * z.imb, 0, 0⟩

/-- One step of the iterated `np.kron` in `calculate_probabilities`:
`kron(v, q)[2k + j] = v[k] · q[j]`. -/
def kronStep (v : List Amp) (q : Qubit) : List Amp :=
  v.flatMap fun a => [a * q.1, a * q.2]

/-- `calculate_probabilities` from project.py: iterated Kronecker product
of the per-qubit vectors in index order, then squared moduli.  On an
empty collection the source's `qubits[0]` raises `IndexError`
(`EmptyQubitCollection`); a non-empty collection never fails. -/
def calculate_probabilities (qubits : List Qubit) : Except QError (List Amp) :=
  match qubits with
  | [] => .error .EmptyQubitCollection
  | q :: rest => .ok ((rest.foldl kronStep [q.1, q.2]).map normSq)

/-- The unit-norm invariant `|a₀|² + |a₁|² = 1` of a qubit state. -/
def norm1 (q : Qubit) : Prop := normSq q.1 + normSq q.2 = 1

instance (q : Qubit) : Decidable (norm1 q) := by
  unfold norm1
  infer_instance

/-- The operation mentions a qubit index `≥ n` (the out-of-range
condition of the spec's `IndexOutOfRange` bullet); a `malformed` tuple
carries no index. -/
def refsOOB (n : Nat) : Operation → Prop
  | .single i _ => (n : Int) ≤ i
  | .triple _ c t => (n : Int) ≤ c ∨ (n : Int) ≤ t
  | .malformed => False

/-!
## Evaluation lemmas

String-literal branches of the source's dispatch code, reduced once and
for all so that concrete runs evaluate by `simp`/`norm_num` (kernel
reduction of ℚ arithmetic is not available, so `decide` is not used on
amplitude goals).
-/

theorem create_qubit_zero : create_qubit "0" = .ok (1, 0) := rfl

theorem create_qubit_one : create_qubit "1" = .ok (0, 1) := rfl

theorem create_qubit_plus : create_qubit "+" = .ok (invSqrt2, invSqrt2) := rfl

theorem create_qubit_minus : create_qubit "-" = .ok (invSqrt2, -invSqrt2) := rfl

theorem gates_H : gates "H" = some ⟨invSqrt2, invSqrt2, invSqrt2, -invSqrt2⟩ := rfl

theorem gates_X : gates "X" = some ⟨0, 1, 1, 0⟩ := rfl

theorem gates_Z : gates "Z" = some ⟨1, 0, 0, -1⟩ := rfl

theorem gates_S : gates "S" = some ⟨1, 0, 0, iUnit⟩ := rfl

theorem gates_T : gates "T" = some ⟨1, 0, 0, expIPiDiv4⟩ := rfl

/-- C7: `fromLabel` (`create_qubit`) maps `"0"` to `(1,0)`, `"1"` to
`(0,1)`, `"+"` to `(1/√2, 1/√2)`, `"-"` to `(1/√2, -1/√2)`, and fails
with `UnknownInitialState` for every other label. -/
theorem create_qubit_spec :
    create_qubit "0" = .ok (1, 0) ∧
    create_qubit "1" = .ok (0, 1) ∧
    create_qubit "+" = .ok (invSqrt2, invSqrt2) ∧
    create_qubit "-" = .ok (invSqrt2, -invSqrt2) ∧
    ∀ s : String, s ≠ "0" → s ≠ "1" → s ≠ "+" → s ≠ "-" →
      create_qubit s = .error .UnknownInitialState := by
  refine ⟨rfl, rfl, rfl, rfl, fun s h0 h1 hp hm => ?_⟩
  rw [create_qubit, if_neg h0, if_neg h1, if_neg hp, if_neg hm]

/-- Witness for C7 at the concrete invalid label `"q"`. -/
theorem create_qubit_spec_w :
    create_qubit "q" = .error .UnknownInitialState :=
  create_qubit_spec.2.2.2.2 "q" (by decide) (by decide) (by decide) (by decide)

/-- C8: the gate dictionary holds the listed fixed matrices for H, X, Z,
S, T — in particular `T = [[1,0],[0,e^(i·π/4)]]` with
`e^(i·π/4) = √2/2 + (√2/2)·i` — and `apply_gate` fails with
`UnknownGate` for every name outside that set. -/
theorem gates_spec :
    gates "H" = some ⟨invSqrt2, invSqrt2, invSqrt2, -invSqrt2⟩ ∧
    gates "X" = some ⟨0, 1, 1, 0⟩ ∧
    gates "Z" = some ⟨1, 0, 0, -1⟩ ∧
    gates "S" = some ⟨1, 0, 0, iUnit⟩ ∧
    gates "T" = some ⟨1, 0, 0, expIPiDiv4⟩ ∧
    ∀ (g : String) (q : Qubit), g ≠ "H" → g ≠ "X" → g ≠ "Z" → g ≠ "S" → g ≠ "T" →
      apply_gate q g = .error .UnknownGate := by
  refine ⟨rfl, rfl, rfl, rfl, rfl, fun g q hH hX hZ hS hT => ?_⟩
  rw [apply_gate, gates, if_neg hH, if_neg hX, if_neg hZ, if_neg hS, if_neg hT]

/-- Witness for C8 at the concrete unknown gate name `"Y"`. -/
theorem gates_spec_w : apply_gate (1, 0) "Y" = .error .UnknownGate :=
  gates_spec.2.2.2.2.2 "Y" (1, 0) (by decide) (by decide) (by decide) (by decide)
    (by decide)

/-- C9: probability extraction on an empty qubit collection fails with
`EmptyQubitCollection` (the source's `qubits[0]` raises `IndexError`
there), and on any non-empty collection it succeeds. -/
theorem calculate_probabilities_total :
    calculate_probabilities [] = .error .EmptyQubitCollection ∧
    ∀ qs : List Qubit, qs ≠ [] → ∃ ps, calculate_probabilities qs = .ok ps := by
  refine ⟨rfl, fun qs h => ?_⟩
  match qs with
  | [] => exact absurd rfl h
  | q :: rest => exact ⟨_, rfl⟩

/-- Witness for C9 on the concrete one-qubit collection `[(1,0)]`. -/
theorem calculate_probabilities_total_w :
    ∃ ps, calculate_probabilities [((1 : Amp), (0 : Amp))] = .ok ps :=
  calculate_probabilities_total.2 [((1 : Amp), (0 : Amp))] (by simp)

/-- C1 (code bug): on `[(1,0), (0,1)]` with control 0 and target 1 the
CNOT of the source does NOT leave the qubits unchanged: the joint vector
is `kron((1,0),(0,1)) = (0,1,0,0)`, the CNOT matrix leaves it as
`(0,1,0,0)`, and the split-back step assigns qubit 0 = `(0,1)` and
qubit 1 = `(0,0)` — a zero vector, not a quantum state.  The claim (and
the intent of a controlled-NOT with control `|0⟩`, which the repository's
own `test_apply_cnot` expects for qubit 0) says both qubits stay
`(1,0)` and `(0,1)`. -/
theorem apply_cnot_01_bug :
    apply_cnot [((1 : Amp), (0 : Amp)), (0, 1)] 0 1 = .ok [(0, 1), (0, 0)] ∧
    apply_cnot [((1 : Amp), (0 : Amp)), (0, 1)] 0 1 ≠
      .ok [((1 : Amp), (0 : Amp)), (0, 1)] := by
  constructor
  · norm_num [apply_cnot, pyGet, pySet, pyIdx, Amp.ext_iff]
  · norm_num [apply_cnot, pyGet, pySet, pyIdx, Amp.ext_iff]

/-- C4 counterexample: `extract([fromLabel("0"), fromLabel("1")])` is not
`[0,0,1,0]`. -/
theorem calculate_probabilities_01_cex :
    create_qubit "0" = .ok (1, 0) ∧ create_qubit "1" = .ok (0, 1) ∧
    calculate_probabilities [((1 : Amp), (0 : Amp)), (0, 1)] ≠
      .ok [0, 0, 1, 0] := by
  refine ⟨rfl, rfl, ?_⟩
  norm_num [calculate_probabilities, kronStep, normSq, Amp.ext_iff]

/-- C4 (amended): `extract([fromLabel("0"), fromLabel("1")])` is
`[0,1,0,0]` — the joint state `|01⟩` has its mass at index `01₂ = 1`
(qubit 0 most significant), matching `kron((1,0),(0,1)) = (0,1,0,0)`. -/
theorem calculate_probabilities_01 :
    create_qubit "0" = .ok (1, 0) ∧ create_qubit "1" = .ok (0, 1) ∧
    calculate_probabilities [((1 : Amp), (0 : Amp)), (0, 1)] =
      .ok [0, 1, 0, 0] := by
  refine ⟨rfl, rfl, ?_⟩
  norm_num [calculate_probabilities, kronStep, normSq, Amp.ext_iff]

theorem normSq_mul (x y : Amp) : normSq (x * y) = normSq x * normSq y := by
  ext <;> simp [normSq] <;> ring

theorem apply_gate_norm1_of_ok (q q2 : Qubit) (g : String)
    (hok : apply_gate q g = .ok q2) (hq : norm1 q) : norm1 q2 := by
  obtain ⟨⟨a, b, c, d⟩, ⟨e, f, u, v⟩⟩ := q
  simp only [norm1, normSq, Amp.ext_iff, Amp.add_rea, Amp.add_reb, Amp.add_ima,
    Amp.add_imb, Amp.one_rea, Amp.one_reb, Amp.one_ima, Amp.one_imb] at hq
  obtain ⟨h1, h2, -, -⟩ := hq
  rw [apply_gate] at hok
  unfold gates at hok
  split_ifs at hok with hH hX hZ hS hT <;>
    simp only [] at hok
  case _ =>
    injection hok with hok
    subst hok
    simp only [norm1, normSq, Amp.ext_iff, invSqrt2, Amp.add_rea, Amp.add_reb,
      Amp.add_ima, Amp.add_imb, Amp.mul_rea, Amp.mul_reb, Amp.mul_ima, Amp.mul_imb,
      Amp.neg_rea, Amp.neg_reb, Amp.neg_ima, Amp.neg_imb, Amp.one_rea, Amp.one_reb,
      Amp.one_ima, Amp.one_imb]
    refine ⟨by linear_combination h1, by linear_combination h2, by norm_num, by norm_num⟩
  case _ =>
    injection hok with hok
    subst hok
    simp only [norm1, normSq, Amp.ext_iff, Amp.add_rea, Amp.add_reb,
      Amp.add_ima, Amp.add_imb, Amp.mul_rea, Amp.mul_reb, Amp.mul_ima, Amp.mul_imb,
      Amp.neg_rea, Amp.neg_reb, Amp.neg_ima, Amp.neg_imb, Amp.one_rea, Amp.one_reb,
      Amp.one_ima, Amp.one_imb, Amp.zero_rea, Amp.zero_reb, Amp.zero_ima, Amp.zero_imb]
    refine ⟨by linear_combination h1, by linear_combination h2, by norm_num, by norm_num⟩
  case _ =>
    injection hok with hok
    subst hok
    simp only [norm1, normSq, Amp.ext_iff, Amp.add_rea, Amp.add_reb,
      Amp.add_ima, Amp.add_imb, Amp.mul_rea, Amp.mul_reb, Amp.mul_ima, Amp.mul_imb,
      Amp.neg_rea, Amp.neg_reb, Amp.neg_ima, Amp.neg_imb, Amp.one_rea, Amp.one_reb,
      Amp.one_ima, Amp.one_imb, Amp.zero_rea, Amp.zero_reb, Amp.zero_ima, Amp.zero_imb]
    refine ⟨by linear_combination h1, by linear_combination h2, by norm_num, by norm_num⟩
  case _ =>
    injection hok with hok
    subst hok
    simp only [norm1, normSq, Amp.ext_iff, iUnit, Amp.add_rea, Amp.add_reb,
      Amp.add_ima, Amp.add_imb, Amp.mul_rea, Amp.mul_reb, Amp.mul_ima, Amp.mul_imb,
      Amp.neg_rea, Amp.neg_reb, Amp.neg_ima, Amp.neg_imb, Amp.one_rea, Amp.one_reb,
      Amp.one_ima, Amp.one_imb, Amp.zero_rea, Amp.zero_reb, Amp.zero_ima, Amp.zero_imb]
    refine ⟨by linear_combination h1, by linear_combination h2, by norm_num, by norm_num⟩
  case _ =>
    injection hok with hok
    subst hok
    simp only [norm1, normSq, Amp.ext_iff, expIPiDiv4, Amp.add_rea, Amp.add_reb,
      Amp.add_ima, Amp.add_imb, Amp.mul_rea, Amp.mul_reb, Amp.mul_ima, Amp.mul_imb,
      Amp.neg_rea, Amp.neg_reb, Amp.neg_ima, Amp.neg_imb, Amp.one_rea, Amp.one_reb,
      Amp.one_ima, Amp.one_imb, Amp.zero_rea, Amp.zero_reb, Amp.zero_ima, Amp.zero_imb]
    refine ⟨by linear_combination h1, by linear_combination h2, by norm_num, by norm_num⟩

/-- C5: for every gate name g in {H, X, Z, S, T} and every qubit state of
unit norm (`|a₀|² + |a₁|² = 1`), `apply_gate` succeeds and the returned
state again has unit norm. -/
theorem apply_gate_unit_norm (g : String)
    (hg : g = "H" ∨ g = "X" ∨ g = "Z" ∨ g = "S" ∨ g = "T")
    (q : Qubit) (hq : norm1 q) :
    ∃ q2, apply_gate q g = .ok q2 ∧ norm1 q2 := by
  rcases hg with rfl | rfl | rfl | rfl | rfl
  · exact ⟨_, rfl, apply_gate_norm1_of_ok q _ "H" rfl hq⟩
  · exact ⟨_, rfl, apply_gate_norm1_of_ok q _ "X" rfl hq⟩
  · exact ⟨_, rfl, apply_gate_norm1_of_ok q _ "Z" rfl hq⟩
  · exact ⟨_, rfl, apply_gate_norm1_of_ok q _ "S" rfl hq⟩
  · exact ⟨_, rfl, apply_gate_norm1_of_ok q _ "T" rfl hq⟩

/-- Witness for C5: the Hadamard gate on the unit-norm state `(1, 0)`. -/
theorem apply_gate_unit_norm_w :
    ∃ q2, apply_gate ((1 : Amp), (0 : Amp)) "H" = .ok q2 ∧ norm1 q2 :=
  apply_gate_unit_norm "H" (Or.inl rfl) ((1 : Amp), (0 : Amp))
    (by norm_num [norm1, normSq, Amp.ext_iff])

theorem pyIdx_nat (n k : Nat) (h : k < n) : pyIdx n (k : Int) = some k := by
  simp only [pyIdx]
  rw [if_pos (by omega), if_pos (by exact_mod_cast h)]
  simp

theorem pyGet_nat (xs : List Qubit) (k : Nat) (h : k < xs.length) :
    pyGet xs (k : Int) = xs[k]? := by
  simp [pyGet, pyIdx_nat xs.length k h, List.get?_eq_getElem?]

theorem pySet_nat (xs : List Qubit) (k : Nat) (v : Qubit) (h : k < xs.length) :
    pySet xs (k : Int) v = xs.set k v := by
  simp [pySet, pyIdx_nat xs.length k h]

/-- C3 (amended: the two indices must be distinct): for a collection of
at least 2 qubits and distinct in-range indices, `apply_cnot` returns the
collection whose `control` entry is the first two components
`(j'₀, j'₁) = (qc₀·qt₀, qc₀·qt₁)` and whose `target` entry is the last
two components `(j'₂, j'₃) = (qc₁·qt₁, qc₁·qt₀)` of `CNOT4 · j`, where
`j[2p+q] = qc[p]·qt[q]` is the Kronecker product and `CNOT4` swaps the
last two amplitudes; all other entries are unchanged. -/
theorem apply_cnot_spec (qs : List Qubit) (c t : Nat)
    (hlen : 2 ≤ qs.length) (hc : c < qs.length) (ht : t < qs.length) (hct : c ≠ t)
    (qc qt : Qubit) (hqc : qs[c]? = some qc) (hqt : qs[t]? = some qt) :
    ∃ qs2, apply_cnot qs (c : Int) (t : Int) = .ok qs2 ∧
      qs2.length = qs.length ∧
      qs2[c]? = some (qc.1 * qt.1, qc.1 * qt.2) ∧
      qs2[t]? = some (qc.2 * qt.2, qc.2 * qt.1) ∧
      ∀ k : Nat, k ≠ c → k ≠ t → qs2[k]? = qs[k]? := by
  refine ⟨(qs.set c (qc.1 * qt.1, qc.1 * qt.2)).set t (qc.2 * qt.2, qc.2 * qt.1),
    ?_, ?_, ?_, ?_, ?_⟩
  · rw [apply_cnot, if_neg (by omega), pyGet_nat qs c hc, pyGet_nat qs t ht, hqc, hqt]
    simp only [pySet_nat qs c (qc.1 * qt.1, qc.1 * qt.2) hc]
    rw [pySet_nat (qs.set c (qc.1 * qt.1, qc.1 * qt.2)) t (qc.2 * qt.2, qc.2 * qt.1)
      (by simpa using ht)]
  · simp
  · rw [List.getElem?_set_ne (Ne.symm hct), List.getElem?_set_eq_of_lt _ hc]
  · rw [List.getElem?_set_eq_of_lt _ (by simpa using ht)]
  · intro k hkc hkt
    rw [List.getElem?_set_ne (Ne.symm hkt), List.getElem?_set_ne (Ne.symm hkc)]

/-- Witness for C3 on `[(1,0), (0,1)]`, control 0, target 1. -/
theorem apply_cnot_spec_w :
    ∃ qs2,
      apply_cnot [((1 : Amp), (0 : Amp)), ((0 : Amp), (1 : Amp))] ((0 : Nat) : Int)
        ((1 : Nat) : Int) = .ok qs2 ∧
      qs2.length = 2 ∧
      qs2[0]? = some ((1 : Amp) * (0 : Amp), (1 : Amp) * (1 : Amp)) ∧
      qs2[1]? = some ((0 : Amp) * (1 : Amp), (0 : Amp) * (0 : Amp)) ∧
      ∀ k : Nat, k ≠ 0 → k ≠ 1 →
        qs2[k]? = [((1 : Amp), (0 : Amp)), ((0 : Amp), (1 : Amp))][k]? :=
  apply_cnot_spec [((1 : Amp), (0 : Amp)), ((0 : Amp), (1 : Amp))] 0 1
    (by norm_num) (by norm_num) (by norm_num) (by norm_num)
    ((1 : Amp), (0 : Amp)) ((0 : Amp), (1 : Amp)) rfl rfl

/-- C3 counterexample: with `control = target` (both in range, collection
of size 2) the claim fails: at `[(1,0), (0,1)]` with control = target = 0
the joint vector is `kron((1,0),(1,0)) = (1,0,0,0)`, fixed by CNOT4, so
the claim requires entry 0 to be its first two components `(1, 0)`; but
the source's second assignment overwrites entry 0 with the last two
components `(0, 0)`. -/
theorem apply_cnot_eq_indices_cex :
    apply_cnot [((1 : Amp), (0 : Amp)), ((0 : Amp), (1 : Amp))] 0 0 =
      .ok [(0, 0), (0, 1)] ∧
    (((0 : Amp), (0 : Amp)) : Qubit) ≠ ((1 : Amp) * (1 : Amp), (1 : Amp) * (0 : Amp)) := by
  constructor
  · norm_num [apply_cnot, pyGet, pySet, pyIdx, Amp.ext_iff]
  · norm_num [Prod.ext_iff, Amp.ext_iff]

theorem pyGet_mem (xs : List Qubit) (i : Int) (q : Qubit) (h : pyGet xs i = some q) :
    q ∈ xs := by
  rw [pyGet] at h
  cases hk : pyIdx xs.length i with
  | none => rw [hk] at h; exact Option.noConfusion h
  | some k =>
      rw [hk, Option.some_bind, List.get?_eq_getElem?] at h
      obtain ⟨h1, rfl⟩ := List.getElem?_eq_some.mp h
      exact List.getElem_mem h1

theorem pySet_mem (xs : List Qubit) (i : Int) (v x : Qubit) (h : x ∈ pySet xs i v) :
    x ∈ xs ∨ x = v := by
  rw [pySet] at h
  cases hk : pyIdx xs.length i with
  | none => rw [hk] at h; exact Or.inl h
  | some k => rw [hk] at h; exact List.mem_or_eq_of_mem_set h

/-- Every qubit built by `create_qubit` has unit norm. -/
theorem create_qubit_norm1 (s : String) (q : Qubit) (h : create_qubit s = .ok q) :
    norm1 q := by
  rw [create_qubit] at h
  split_ifs at h <;> injection h with h <;> subst h <;>
    norm_num [norm1, normSq, invSqrt2, Amp.ext_iff]

/-- Every qubit built by `create_qubits` has unit norm. -/
theorem create_qubits_norm1 (ls : List String) (qs : List Qubit)
    (h : create_qubits ls = .ok qs) : ∀ x ∈ qs, norm1 x := by
  induction ls generalizing qs with
  | nil =>
      rw [create_qubits] at h
      injection h with h
      subst h
      intro x hx
      exact absurd hx (List.not_mem_nil x)
  | cons s rest ih =>
      rw [create_qubits] at h
      cases h1 : create_qubit s with
      | error e => rw [h1] at h; exact Except.noConfusion h
      | ok q =>
          rw [h1] at h
          cases h2 : create_qubits rest with
          | error e => rw [h2] at h; exact Except.noConfusion h
          | ok qs0 =>
              rw [h2] at h
              injection h with h
              subst h
              intro x hx
              rcases List.mem_cons.mp hx with rfl | hx
              · exact create_qubit_norm1 s x h1
              · exact ih qs0 h2 x hx

/-- A single-qubit operation step preserves the unit-norm invariant of
the whole collection. -/
theorem applyOp_single_norm1 (qs qs2 : List Qubit) (i : Int) (g : String)
    (h : applyOp qs (.single i g) = .ok qs2) (hn : ∀ x ∈ qs, norm1 x) :
    ∀ x ∈ qs2, norm1 x := by
  rw [applyOp] at h
  cases h1 : pyGet qs i with
  | none => rw [h1] at h; exact Except.noConfusion h
  | some q =>
      rw [h1] at h
      cases h2 : apply_gate q g with
      | error e =>
          simp only [h2] at h
          exact Except.noConfusion h
      | ok q2 =>
          simp only [h2, Except.ok.injEq] at h
          subst h
          intro x hx
          rcases pySet_mem qs i q2 x hx with hx | rfl
          · exact hn x hx
          · exact apply_gate_norm1_of_ok q x g h2 (hn q (pyGet_mem qs i q h1))

/-- Running a sequence of single-qubit operations preserves the
unit-norm invariant of the whole collection. -/
theorem runOps_single_norm1 (ops : List Operation) (qs qs2 : List Qubit)
    (hops : ∀ op ∈ ops, ∃ i g, op = Operation.single i g)
    (h : runOps qs ops = .ok qs2) (hn : ∀ x ∈ qs, norm1 x) :
    ∀ x ∈ qs2, norm1 x := by
  induction ops generalizing qs with
  | nil =>
      rw [runOps] at h
      injection h with h
      subst h
      exact hn
  | cons op rest ih =>
      rw [runOps] at h
      obtain ⟨i, g, rfl⟩ := hops op (List.mem_cons_self op rest)
      cases h1 : applyOp qs (.single i g) with
      | error e => rw [h1] at h; exact Except.noConfusion h
      | ok qs1 =>
          rw [h1] at h
          exact ih qs1 (fun o ho => hops o (List.mem_cons_of_mem _ ho)) h
            (applyOp_single_norm1 qs qs1 i g h1 hn)

theorem normSq_mul_amp (x y : Amp) : normSq (x * y) = normSq x * normSq y := by
  ext <;> simp [normSq] <;> ring

/-- One Kronecker step multiplies the total squared mass by the norm of
the new qubit. -/
theorem kronStep_sum (v : List Amp) (q : Qubit) :
    ((kronStep v q).map normSq).sum =
      (v.map normSq).sum * (normSq q.1 + normSq q.2) := by
  induction v with
  | nil => simp [kronStep]
  | cons a v ih =>
      simp only [kronStep, List.flatMap_cons] at ih ⊢
      simp only [List.map_append, List.sum_append, List.map_cons, List.map_nil,
        List.sum_cons, List.sum_nil, ih, normSq_mul_amp]
      ring

/-- Folding Kronecker steps over unit-norm qubits keeps the total
squared mass unchanged. -/
theorem foldl_kronStep_sum (rest : List Qubit) (acc : List Amp)
    (hn : ∀ x ∈ rest, norm1 x) :
    ((rest.foldl kronStep acc).map normSq).sum = (acc.map normSq).sum := by
  induction rest generalizing acc with
  | nil => simp
  | cons q rest ih =>
      rw [List.foldl_cons, ih (kronStep acc q) (fun x hx => hn x (List.mem_cons_of_mem _ hx)),
        kronStep_sum, hn q (List.mem_cons_self q rest), mul_one]

/-- On a collection of unit-norm qubits, `calculate_probabilities`
returns entries summing to 1. -/
theorem calculate_probabilities_sum (qs : List Qubit) (ps : List Amp)
    (hn : ∀ x ∈ qs, norm1 x) (h : calculate_probabilities qs = .ok ps) :
    ps.sum = 1 := by
  match qs with
  | [] => exact Except.noConfusion h
  | q :: rest =>
      rw [calculate_probabilities] at h
      injection h with h
      subst h
      rw [foldl_kronStep_sum rest [q.1, q.2]
        (fun x hx => hn x (List.mem_cons_of_mem _ hx))]
      have hq := hn q (List.mem_cons_self q rest)
      rw [norm1] at hq
      simp [hq]

/-- C2 (amended: circuits whose operations are all single-qubit): for
every successful run of the engine on such a circuit, the probability
distribution returned by `calculate_probabilities` sums to 1.  (With a
CNOT in the circuit this fails — see the counterexample.) -/
theorem simulate_probabilities_sum_one (labels : List String) (ops : List Operation)
    (hops : ∀ op ∈ ops, ∃ i g, op = Operation.single i g)
    (qs : List Qubit) (hrun : simulate_circuit labels ops = .ok qs)
    (ps : List Amp) (hps : calculate_probabilities qs = .ok ps) :
    ps.sum = 1 := by
  rw [simulate_circuit] at hrun
  cases hcr : create_qubits labels with
  | error e => rw [hcr] at hrun; exact Except.noConfusion hrun
  | ok qs0 =>
      rw [hcr] at hrun
      exact calculate_probabilities_sum qs ps
        (runOps_single_norm1 ops qs0 qs hops hrun (create_qubits_norm1 labels qs0 hcr))
        hps

/-- Witness for C2 (amended): the run `["+"]` with a single Hadamard
produces the state `(1, 0)` and the distribution `[1, 0]`. -/
theorem simulate_probabilities_sum_one_w : ([1, 0] : List Amp).sum = 1 :=
  simulate_probabilities_sum_one ["+"] [.single 0 "H"]
    (by
      intro op hop
      rw [List.mem_singleton] at hop
      exact ⟨0, "H", hop⟩)
    [((1 : Amp), (0 : Amp))]
    (by
      norm_num [simulate_circuit, create_qubits, create_qubit_plus, runOps, applyOp,
        apply_gate, gates_H, pyGet, pySet, pyIdx, invSqrt2, Amp.ext_iff,
        Prod.ext_iff])
    [1, 0]
    (by norm_num [calculate_probabilities, kronStep, normSq, Amp.ext_iff])

/-- C2 counterexample: on the spec's own golden-output example —
`run(["0","1"], [H on qubit 0, CNOT 0 1])` — the engine succeeds with
states `[(0, 1/√2), (1/√2, 0)]`, and the extracted distribution is
`[0, 0, 1/4, 0]`, summing to 1/4, not 1: the CNOT truncation destroys
the total probability mass when the control is in superposition. -/
theorem simulate_probabilities_sum_cex :
    simulate_circuit ["0", "1"] [.single 0 "H", .triple "CNOT" 0 1] =
      .ok [(0, invSqrt2), (invSqrt2, 0)] ∧
    calculate_probabilities [(0, invSqrt2), (invSqrt2, 0)] =
      .ok [0, 0, ⟨1/4, 0, 0, 0⟩, 0] ∧
    ([0, 0, (⟨1/4, 0, 0, 0⟩ : Amp), 0] : List Amp).sum ≠ 1 := by
  refine ⟨?_, ?_, ?_⟩
  · norm_num [simulate_circuit, create_qubits, create_qubit_zero, create_qubit_one,
      runOps, applyOp, apply_gate, gates_H, apply_cnot, pyGet, pySet, pyIdx,
      invSqrt2, Amp.ext_iff, Prod.ext_iff]
  · norm_num [calculate_probabilities, kronStep, normSq, invSqrt2, Amp.ext_iff]
  · norm_num [Amp.ext_iff]

theorem pySet_length (xs : List Qubit) (i : Int) (v : Qubit) :
    (pySet xs i v).length = xs.length := by
  rw [pySet]
  cases pyIdx xs.length i with
  | none => rfl
  | some k => exact List.length_set xs k v

/-- A successful operation step preserves the number of qubits. -/
theorem applyOp_length (qs qs2 : List Qubit) (op : Operation)
    (h : applyOp qs op = .ok qs2) : qs2.length = qs.length := by
  match op with
  | .single i g =>
      rw [applyOp] at h
      cases h1 : pyGet qs i with
      | none => rw [h1] at h; exact Except.noConfusion h
      | some q =>
          rw [h1] at h
          cases h2 : apply_gate q g with
          | error e =>
              simp only [h2] at h
              exact Except.noConfusion h
          | ok q2 =>
              simp only [h2, Except.ok.injEq] at h
              subst h
              exact pySet_length qs i q2
  | .triple head c t =>
      rw [applyOp] at h
      by_cases hh : head = "CNOT"
      · rw [if_pos hh, apply_cnot] at h
        by_cases hl : qs.length < 2
        · rw [if_pos hl] at h
          exact Except.noConfusion h
        · rw [if_neg hl] at h
          cases hc : pyGet qs c with
          | none => rw [hc] at h; exact Except.noConfusion h
          | some qc =>
              cases ht : pyGet qs t with
              | none => rw [hc, ht] at h; exact Except.noConfusion h
              | some qt =>
                  rw [hc, ht] at h
                  simp only [Except.ok.injEq] at h
                  subst h
                  rw [pySet_length, pySet_length]
      · rw [if_neg hh] at h
        exact Except.noConfusion h
  | .malformed =>
      rw [applyOp] at h
      exact Except.noConfusion h

/-- A successful run preserves the number of qubits. -/
theorem runOps_length (ops : List Operation) (qs qs2 : List Qubit)
    (h : runOps qs ops = .ok qs2) : qs2.length = qs.length := by
  induction ops generalizing qs with
  | nil =>
      rw [runOps] at h
      injection h with h
      subst h
      rfl
  | cons op rest ih =>
      rw [runOps] at h
      cases h1 : applyOp qs op with
      | error e => rw [h1] at h; exact Except.noConfusion h
      | ok qs1 => rw [h1] at h; rw [ih qs1 h, applyOp_length qs qs1 op h1]

/-- `create_qubits` produces one qubit per label. -/
theorem create_qubits_length (ls : List String) (qs : List Qubit)
    (h : create_qubits ls = .ok qs) : qs.length = ls.length := by
  induction ls generalizing qs with
  | nil =>
      rw [create_qubits] at h
      injection h with h
      subst h
      rfl
  | cons s rest ih =>
      rw [create_qubits] at h
      cases h1 : create_qubit s with
      | error e => rw [h1] at h; exact Except.noConfusion h
      | ok q =>
          rw [h1] at h
          cases h2 : create_qubits rest with
          | error e => rw [h2] at h; exact Except.noConfusion h
          | ok qs0 =>
              rw [h2] at h
              injection h with h
              subst h
              simp [ih qs0 h2]

/-- The operation loop splits over list append. -/
theorem runOps_append (qs : List Qubit) (l1 l2 : List Operation) :
    runOps qs (l1 ++ l2) =
      match runOps qs l1 with
      | .error e => .error e
      | .ok m => runOps m l2 := by
  induction l1 generalizing qs with
  | nil => rw [List.nil_append, runOps]
  | cons op rest ih =>
      rw [List.cons_append, runOps, runOps]
      cases applyOp qs op with
      | error e => rfl
      | ok qs1 => exact ih qs1

theorem pyIdx_ge_none (n : Nat) (i : Int) (h : (n : Int) ≤ i) : pyIdx n i = none := by
  rw [pyIdx, if_pos (by omega), if_neg (by omega)]

/-- An operation mentioning an index `≥` the qubit count always fails. -/
theorem applyOp_refsOOB_error (qs : List Qubit) (op : Operation)
    (h : refsOOB qs.length op) : ∃ e, applyOp qs op = .error e := by
  match op with
  | .single i g =>
      rw [refsOOB] at h
      refine ⟨.IndexOutOfRange, ?_⟩
      rw [applyOp, pyGet, pyIdx_ge_none qs.length i h]
      rfl
  | .triple head c t =>
      rw [refsOOB] at h
      by_cases hh : head = "CNOT"
      · by_cases hl : qs.length < 2
        · exact ⟨.InsufficientQubits, by rw [applyOp, if_pos hh, apply_cnot, if_pos hl]⟩
        · refine ⟨.IndexOutOfRange, ?_⟩
          rw [applyOp, if_pos hh, apply_cnot, if_neg hl]
          rcases h with h | h
          · rw [pyGet, pyIdx_ge_none qs.length c h]
            rfl
          · simp only [pyGet, pyIdx_ge_none qs.length t h, Option.none_bind]
            cases (pyIdx qs.length c).bind fun k => qs.get? k <;> rfl
      · exact ⟨.UnsupportedOperation, by rw [applyOp, if_neg hh]⟩
  | .malformed => exact absurd h id

/-- A run whose remaining operations mention an index `≥` the qubit
count never returns a result. -/
theorem runOps_refsOOB_error (ops : List Operation) (qs : List Qubit)
    (h : ∃ op ∈ ops, refsOOB qs.length op) : ∃ e, runOps qs ops = .error e := by
  induction ops generalizing qs with
  | nil =>
      obtain ⟨op, hop, -⟩ := h
      exact absurd hop (List.not_mem_nil op)
  | cons op rest ih =>
      rw [runOps]
      cases h1 : applyOp qs op with
      | error e => exact ⟨e, rfl⟩
      | ok qs1 =>
          obtain ⟨o, ho, hoob⟩ := h
          rcases List.mem_cons.mp ho with rfl | ho
          · obtain ⟨e, he⟩ := applyOp_refsOOB_error qs o hoob
            rw [he] at h1
            exact Except.noConfusion h1
          · refine ih qs1 ⟨o, ho, ?_⟩
            rw [applyOp_length qs qs1 op h1]
            exact hoob

/-- An operation whose out-of-range reference is the first failure of
its own step — a single-qubit operation (the index is read before the
gate name is looked up), or a CNOT on a collection of at least two
qubits (the length check passes and the index lookup raises) — fails
with `IndexOutOfRange` itself. -/
theorem applyOp_refsOOB_ioor (qs : List Qubit) (op : Operation)
    (h : refsOOB qs.length op)
    (htr : ∀ head c t, op = Operation.triple head c t →
      head = "CNOT" ∧ 2 ≤ qs.length) :
    applyOp qs op = .error .IndexOutOfRange := by
  match op with
  | .single i g =>
      rw [refsOOB] at h
      rw [applyOp, pyGet, pyIdx_ge_none qs.length i h]
      rfl
  | .triple head c t =>
      rw [refsOOB] at h
      obtain ⟨hh, hl⟩ := htr head c t rfl
      rw [applyOp, if_pos hh, apply_cnot, if_neg (by omega)]
      rcases h with h | h
      · rw [pyGet, pyIdx_ge_none qs.length c h]
        rfl
      · simp only [pyGet, pyIdx_ge_none qs.length t h, Option.none_bind]
        cases (pyIdx qs.length c).bind fun k => qs.get? k <;> rfl
  | .malformed => exact absurd h id

/-- C6 (amended): a run containing an operation that references a qubit
index `≥` the qubit count never completes — it returns an error and no
partial result — and the error is `IndexOutOfRange` whenever the
out-of-range reference is the first failure encountered: all initial
labels valid, every earlier operation successful, and the failing
operation itself reaching its index lookup (a single-qubit operation,
or a CNOT on at least two qubits).  Earlier failures (invalid label,
unknown gate, unsupported tuple, CNOT with fewer than two qubits) take
precedence, per the first-encountered-error rule the claim itself
states. -/
theorem simulate_oob (labels : List String) (ops : List Operation)
    (hbad : ∃ op ∈ ops, refsOOB labels.length op) :
    (∃ e, simulate_circuit labels ops = .error e) ∧
    (∀ pre op rest qs1, ops = pre ++ op :: rest →
      refsOOB labels.length op →
      (∀ head c t, op = Operation.triple head c t →
        head = "CNOT" ∧ 2 ≤ labels.length) →
      simulate_circuit labels pre = .ok qs1 →
      simulate_circuit labels ops = .error .IndexOutOfRange) := by
  constructor
  · rw [simulate_circuit]
    cases hcr : create_qubits labels with
    | error e => exact ⟨e, rfl⟩
    | ok qs0 =>
        refine runOps_refsOOB_error ops qs0 ?_
        rw [create_qubits_length labels qs0 hcr]
        exact hbad
  · intro pre op rest qs1 hsplit hoob htr hpre
    subst hsplit
    rw [simulate_circuit] at hpre ⊢
    cases hcr : create_qubits labels with
    | error e => rw [hcr] at hpre; exact Except.noConfusion hpre
    | ok qs0 =>
        rw [hcr] at hpre
        change runOps qs0 pre = Except.ok qs1 at hpre
        change runOps qs0 (pre ++ op :: rest) = Except.error QError.IndexOutOfRange
        rw [runOps_append, hpre]
        change runOps qs1 (op :: rest) = Except.error QError.IndexOutOfRange
        have hlen : qs1.length = labels.length := by
          rw [runOps_length pre qs0 qs1 hpre, create_qubits_length labels qs0 hcr]
        have happ : applyOp qs1 op = .error .IndexOutOfRange := by
          refine applyOp_refsOOB_ioor qs1 op ?_ ?_
          · rw [hlen]
            exact hoob
          · intro head c t hop
            obtain ⟨h1, h2⟩ := htr head c t hop
            exact ⟨h1, by omega⟩
        rw [runOps, happ]

/-- Witness for C6 on the run `["0", "1"]` with the single operation
`('CNOT', 0, 5)`: target index 5 ≥ 2 is the first failure encountered
(two qubits are present, so the length check passes) and the run fails
with `IndexOutOfRange`. -/
theorem simulate_oob_w :
    simulate_circuit ["0", "1"] [Operation.triple "CNOT" 0 5] =
      .error .IndexOutOfRange :=
  (simulate_oob ["0", "1"] [Operation.triple "CNOT" 0 5]
      ⟨Operation.triple "CNOT" 0 5, List.mem_singleton.mpr rfl, by
        rw [refsOOB]
        norm_num⟩).2
    [] (Operation.triple "CNOT" 0 5) [] [(1, 0), (0, 1)] rfl
    (by
      rw [refsOOB]
      norm_num)
    (by
      intro head c t hop
      injection hop with hh hc ht
      exact ⟨hh.symm, by norm_num⟩)
    rfl

/-- C6 counterexample: the claim as stated — the error is always
`IndexOutOfRange` — fails when an earlier check fires first: with one
qubit, `('CNOT', 5, 0)` references index 5 ≥ 1, yet the run fails with
`InsufficientQubits` (the `len(qubits) < 2` check precedes the index
lookup). -/
theorem simulate_oob_cex :
    refsOOB 1 (Operation.triple "CNOT" 5 0) ∧
    simulate_circuit ["0"] [Operation.triple "CNOT" 5 0] =
      .error .InsufficientQubits ∧
    QError.InsufficientQubits ≠ QError.IndexOutOfRange := by
  refine ⟨?_, ?_, by decide⟩
  · rw [refsOOB]
    norm_num
  · norm_num [simulate_circuit, create_qubits, create_qubit_zero, runOps, applyOp,
      apply_cnot]

theorem pyIdx_neg (n : Nat) (t : Int) (h1 : -(n : Int) ≤ t) (h2 : t < 0) :
    pyIdx n t = pyIdx n ((n : Int) + t) := by
  rw [pyIdx, if_neg (by omega), if_pos (by omega), pyIdx, if_pos (by omega),
    if_pos (by omega)]

theorem apply_gate_error_unknown (q : Qubit) (g : String) (e : QError)
    (h : apply_gate q g = .error e) : e = .UnknownGate := by
  rw [apply_gate] at h
  cases hg : gates g with
  | none =>
      rw [hg] at h
      injection h with h
      exact h.symm
  | some m =>
      rw [hg] at h
      exact Except.noConfusion h

/-- C10: inside a run, a single-qubit operation with a negative target
index `t`, `-n ≤ t < 0` (`n` = number of labels = number of qubits),
behaves exactly like the operation on qubit `n + t` — Python's
from-the-end indexing — and in particular its step never raises
`IndexOutOfRange`. -/
theorem simulate_neg_index (labels : List String) (pre post : List Operation)
    (t : Int) (g : String) (h1 : -(labels.length : Int) ≤ t) (h2 : t < 0) :
    (simulate_circuit labels (pre ++ Operation.single t g :: post) =
      simulate_circuit labels
        (pre ++ Operation.single ((labels.length : Int) + t) g :: post)) ∧
    ∀ qs : List Qubit, qs.length = labels.length →
      applyOp qs (Operation.single t g) ≠ .error .IndexOutOfRange := by
  have key : ∀ qs : List Qubit, qs.length = labels.length →
      applyOp qs (Operation.single t g) =
        applyOp qs (Operation.single ((labels.length : Int) + t) g) := by
    intro qs hlen
    rw [applyOp, applyOp]
    simp only [pyGet, pySet, hlen, pyIdx_neg labels.length t h1 h2]
  constructor
  · rw [simulate_circuit, simulate_circuit]
    cases hcr : create_qubits labels with
    | error e => rfl
    | ok qs0 =>
        change runOps qs0 (pre ++ Operation.single t g :: post) =
          runOps qs0 (pre ++ Operation.single ((labels.length : Int) + t) g :: post)
        rw [runOps_append, runOps_append]
        cases hrun : runOps qs0 pre with
        | error e => rfl
        | ok qs1 =>
            change runOps qs1 (Operation.single t g :: post) =
              runOps qs1 (Operation.single ((labels.length : Int) + t) g :: post)
            rw [runOps, runOps,
              key qs1 (by rw [runOps_length pre qs0 qs1 hrun,
                create_qubits_length labels qs0 hcr])]
  · intro qs hlen hcon
    rw [key qs hlen, applyOp] at hcon
    have hk : ((labels.length : Int) + t).toNat < qs.length := by omega
    rw [pyGet, hlen, pyIdx, if_pos (by omega), if_pos (by omega), Option.some_bind,
      List.get?_eq_getElem?] at hcon
    rw [List.getElem?_eq_getElem (by omega)] at hcon
    cases hg : apply_gate qs[((labels.length : Int) + t).toNat] g with
    | error e =>
        simp only [hg] at hcon
        injection hcon with hcon
        exact QError.noConfusion (hcon.symm.trans (apply_gate_error_unknown _ g e hg))
    | ok q2 =>
        simp only [hg] at hcon
        exact Except.noConfusion hcon

/-- Witness for C10: on the two-qubit run, the operation `(-1, "X")`
behaves exactly like `(1, "X")` (= `2 + (-1)`). -/
theorem simulate_neg_index_w :
    simulate_circuit ["0", "1"] [Operation.single (-1) "X"] =
      simulate_circuit ["0", "1"] [Operation.single ((2 : Int) + (-1)) "X"] :=
  (simulate_neg_index ["0", "1"] [] [] (-1) "X" (by norm_num) (by norm_num)).1
